import Mathlib

/-!
Verification development for the firebuild agent: a shallow embedding of the
GPT API client (`src/lib/gptApi.ts`), the JSON sanitizer and path helper
(`src/lib/util.ts`) and the agent loop and tool dispatch (the unnamed main
script).  External collaborators (the network, `JSON.parse`, the filesystem,
the shell, the interactive prompt) are passed in as oracle functions; the
repository's own logic is translated directly.
-/

namespace Firebuild

/-- Generic parsed JSON value, as in `ParsedJson` of `src/lib/util.ts`:
string, number, boolean, null, array or string-keyed object. -/
inductive Json where
  | str : String → Json
  | num : Int → Json
  | bool : Bool → Json
  | null : Json
  | arr : List Json → Json
  | obj : List (String × Json) → Json

/-- Property lookup on a JS object: the first binding of the key, `none` when
the key is absent (a missing property reads as `undefined`). -/
def getField : List (String × Json) → String → Option Json
  | [], _ => none
  | (k, v) :: rest, key => if k = key then some v else getField rest key

/-- The `function_call` object attached to an assistant message:
`{name: string, arguments: string}` (`functionCallSchema`). -/
structure FunctionCall where
  name : String
  arguments : String
deriving DecidableEq, Repr

/-- A conversation entry (`messageSchema` of `src/lib/gptApi.ts`): system,
user, assistant (with optional function call) or function-result message. -/
inductive Message where
  | system (content : String)
  | user (content : String)
  | assistant (content : String) (function_call : Option FunctionCall)
  | function (name : String) (content : String)
deriving DecidableEq, Repr

/-- The three legal first-choice shapes of the completion response, as parsed
by the zod union in `callGptApi` (lines 184-210 of `src/lib/gptApi.ts`). -/
inductive ParsedChoice where
  | length
  | stop (content : String)
  | functionCall (content : String) (fc : FunctionCall)
deriving DecidableEq, Repr

/-- First union member: `z.object({finish_reason: z.literal("length")})`. -/
def parseLengthShape : Json → Option ParsedChoice
  | .obj fields =>
    match getField fields ("finish_reason") with
    | some (.str fr) => if fr = "length" then some .length else none
    | _ => none
  | _ => none

/-- Second union member: `finish_reason: "stop"` with a message carrying a
string `content`, role `assistant` and `function_call: z.undefined()`. -/
def parseStopShape : Json → Option ParsedChoice
  | .obj fields =>
    match getField fields ("finish_reason"), getField fields ("message") with
    | some (.str fr), some (.obj msg) =>
      if fr = "stop" then
        match getField msg ("content"), getField msg ("role"),
            getField msg ("function_call") with
        | some (.str content), some (.str role), none =>
          if role = "assistant" then some (.stop content) else none
        | _, _, _ => none
      else none
    | _, _ => none
  | _ => none

/-- `z.string().nullable().transform(x => x == null ? "" : x)`: the message
content of a function-call choice, `null` normalized to the empty string. -/
def parseNullableContent : Option Json → Option String
  | some (.str s) => some s
  | some .null => some ""
  | _ => none

/-- Third union member: `finish_reason: "function_call"` with a message whose
content may be null, role `assistant`, and a function-call object holding a
`name` string and an `arguments` string. -/
def parseFunctionCallShape : Json → Option ParsedChoice
  | .obj fields =>
    match getField fields ("finish_reason"), getField fields ("message") with
    | some (.str fr), some (.obj msg) =>
      if fr = "function_call" then
        match parseNullableContent (getField msg ("content")),
            getField msg ("role"), getField msg ("function_call") with
        | some content, some (.str role), some (.obj fcFields) =>
          if role = "assistant" then
            match getField fcFields ("name"), getField fcFields ("arguments") with
            | some (.str name), some (.str args) =>
              some (.functionCall content ⟨name, args⟩)
            | _, _ => none
          else none
        | _, _, _ => none
      else none
    | _, _ => none
  | _ => none

/-- The zod union over the three choice shapes, tried in order; a choice that
matches none of them is a fatal parse error that surfaces the raw offending
choice (`console.log(choice); throw e`), modelled by `Except.error` carrying
the choice. -/
def parseChoice (j : Json) : Except Json ParsedChoice :=
  match parseLengthShape j with
  | some c => .ok c
  | none =>
    match parseStopShape j with
    | some c => .ok c
    | none =>
      match parseFunctionCallShape j with
      | some c => .ok c
      | none => .error j

/-- Success payload of `callGptApi`: the new assistant message and the
caller's message list with that message appended. -/
structure SuccessResult where
  newMessage : Message
  messages : List Message
deriving DecidableEq, Repr

/-- The `Result` type of `src/lib/gptApi.ts`: `{success: false, error:
"exceededTokenLimit"}` or `{success: true, newMessage, messages}`. -/
inductive GptResult where
  | failure
  | success (r : SuccessResult)
deriving DecidableEq, Repr

/-- The unrecoverable faults `callGptApi` can raise: a transport fault after
retries, a malformed body, an empty `choices` array, a choice matching none
of the three shapes (carrying the raw choice), or the trailing "GPT had
unexpected finish reason" error. -/
inductive GptFatal where
  | transportNetwork
  | transportStatus (status : Nat)
  | badBody
  | noResponse
  | badChoice (choice : Json)
  | unexpectedFinishReason (reason : String)

/-- `getReturnValue` of `callGptApi`: builds the success result from the
caller's messages and the new assistant message, appending rather than
mutating. -/
def getReturnValue (messages : List Message) (newMessage : Message) : GptResult :=
  .success ⟨newMessage, messages ++ [newMessage]⟩

/-- The common `finish_reason` discriminant of a parsed choice. -/
def ParsedChoice.finishReasonOf : ParsedChoice → String
  | .length => "length"
  | .stop _ => "stop"
  | .functionCall _ _ => "function_call"

/-- The (normalized) message content of a parsed choice; the length shape
carries no message and yields the empty string (never read on that branch). -/
def ParsedChoice.messageContent : ParsedChoice → String
  | .length => ""
  | .stop content => content
  | .functionCall content _ => content

/-- The function call of a parsed choice, when its shape carries one. -/
def ParsedChoice.messageFunctionCall : ParsedChoice → Option FunctionCall
  | .functionCall _ fc => some fc
  | _ => none

/-- Lines 216-247 of `callGptApi`: the if-chain on `finish_reason` after the
union parse, ending in the `throw new Error("GPT had unexpected finish
reason")` branch. -/
def finishDispatch (messages : List Message) (parsedChoice : ParsedChoice) :
    Except GptFatal GptResult :=
  if parsedChoice.finishReasonOf = "length" then
    .ok .failure
  else if parsedChoice.finishReasonOf = "stop" then
    .ok (getReturnValue messages (.assistant parsedChoice.messageContent none))
  else if parsedChoice.finishReasonOf = "function_call" then
    .ok (getReturnValue messages
      (.assistant parsedChoice.messageContent parsedChoice.messageFunctionCall))
  else
    .error (.unexpectedFinishReason parsedChoice.finishReasonOf)

/-- Lines 175-247 of `callGptApi`: the response body must be an object with a
`choices` array; `choices[0]` missing is the fatal "No response from GPT.";
the first choice goes through the union parse and then `finishDispatch`. -/
def parseResponse (messages : List Message) (body : Json) :
    Except GptFatal GptResult :=
  match body with
  | .obj fields =>
    match getField fields ("choices") with
    | some (.arr choices) =>
      match choices.head? with
      | none => .error .noResponse
      | some choice =>
        match parseChoice choice with
        | .error c => .error (.badChoice c)
        | .ok parsedChoice => finishDispatch messages parsedChoice
    | _ => .error .badBody
  | _ => .error .badBody

/-- One outcome of the external `fetch`: a network-level fault (the promise
rejects) or an HTTP response with its status and parsed body. -/
inductive AttemptOutcome where
  | networkError
  | httpResponse (status : Nat) (body : Json)

/-- The fault the transport loop re-raises. -/
inductive Fault where
  | network
  | httpStatus (status : Nat)
deriving DecidableEq, Repr

/-- What the retry loop observably did: how many fetch attempts were made and
the `asyncSleep` durations awaited, in order. -/
structure TransportTrace where
  attemptsMade : Nat
  sleepsMs : List Nat
deriving DecidableEq, Repr

/-- Outcome of the transport loop: a 2xx body to parse, or the re-raised last
fault. -/
inductive TransportResult where
  | gotResponse (body : Json)
  | raised (lastFault : Fault)

/-- `const totalTries = 3` of `callGptApi`. -/
def totalTries : Nat := 3

/-- The retry loop of `callGptApi` (lines 109-174), run against a transport
stub giving the outcome of each 0-indexed fetch attempt.  `response.ok` is a
status in [200, 300); a 4xx status sets `doNotRetry` and re-raises at once;
any other failure retries while `triesLeft > 0`, sleeping
`1000 * (totalTries - triesLeft)` ms after the decrement. -/
def retryLoopGo (stub : Nat → AttemptOutcome) : Nat → Nat → Nat → List Nat →
    TransportTrace × TransportResult
  | attemptIndex, triesLeft, attemptsMade, sleepsMs =>
    let made := attemptsMade + 1
    match stub attemptIndex with
    | .httpResponse status body =>
      if 200 ≤ status ∧ status < 300 then
        (⟨made, sleepsMs⟩, .gotResponse body)
      else if 400 ≤ status ∧ status < 500 then
        (⟨made, sleepsMs⟩, .raised (.httpStatus status))
      else
        match triesLeft with
        | t + 1 =>
          retryLoopGo stub (attemptIndex + 1) t made
            (sleepsMs ++ [1000 * (totalTries - t)])
        | 0 => (⟨made, sleepsMs⟩, .raised (.httpStatus status))
    | .networkError =>
      match triesLeft with
      | t + 1 =>
        retryLoopGo stub (attemptIndex + 1) t made
          (sleepsMs ++ [1000 * (totalTries - t)])
      | 0 => (⟨made, sleepsMs⟩, .raised .network)

/-- The whole transport phase of `callGptApi`: the retry loop entered with
`triesLeft = totalTries`, no attempts made and no sleeps awaited. -/
def transportLoop (stub : Nat → AttemptOutcome) :
    TransportTrace × TransportResult :=
  retryLoopGo stub 0 totalTries 0 []

/-- `callGptApi` run against a transport stub: the retry loop, then (on a 2xx
body) the response parse, together with the observable transport trace. -/
def callGptApi (stub : Nat → AttemptOutcome) (messages : List Message) :
    TransportTrace × Except GptFatal GptResult :=
  match transportLoop stub with
  | (trace, .raised .network) => (trace, .error .transportNetwork)
  | (trace, .raised (.httpStatus s)) => (trace, .error (.transportStatus s))
  | (trace, .gotResponse body) => (trace, parseResponse messages body)

/-- The `insideString` flag after examining one character, per the code's own
tracking: an unescaped `"` — previous character not a backslash — toggles the
flag before the character itself is classified. -/
def nextInside (c : Char) (insideString wasBackslash : Bool) : Bool :=
  if c = '"' && !wasBackslash then !insideString else insideString

/-- Character-by-character body of `preprocessGptJson` (`src/lib/util.ts`
lines 90-112): the `insideString` toggle of `nextInside` is applied first; a
literal newline or carriage return while inside a string is emitted as the
two characters backslash and `n`; every other character is copied;
`wasBackslash` records whether this character is a backslash. -/
def preprocessGptJsonGo : List Char → Bool → Bool → List Char
  | [], _, _ => []
  | c :: rest, insideString, wasBackslash =>
    (if nextInside c insideString wasBackslash && (c = '\n' || c = '\r')
      then ['\\', 'n'] else [c])
      ++ preprocessGptJsonGo rest (nextInside c insideString wasBackslash) (c = '\\')

/-- `preprocessGptJson` of `src/lib/util.ts`: the sanitizer over the whole
string, started outside any string with no preceding backslash. -/
def preprocessGptJson (jsonString : String) : String :=
  ⟨preprocessGptJsonGo jsonString.data false false⟩

/-- States of a correct JSON string lexer: outside every string literal,
inside one, or inside one immediately after a backslash (so the next
character is escaped). -/
inductive LexState where
  | outside
  | inString
  | inEscape
deriving DecidableEq, Repr

/-- One step of the correct JSON string lexer. -/
def lexStep : LexState → Char → LexState
  | .outside, c => if c = '"' then .inString else .outside
  | .inString, c => if c = '\\' then .inEscape else if c = '"' then .outside else .inString
  | .inEscape, _ => .inString

/-- Whether the text, lexed from the given state, contains no unescaped
literal newline or carriage return inside a string literal (a newline in
state `inString`; one in state `inEscape` stands escaped). -/
def jsonCleanGo : List Char → LexState → Bool
  | [], _ => true
  | c :: rest, st =>
    if st = .inString && (c = '\n' || c = '\r') then false
    else jsonCleanGo rest (lexStep st c)

/-- A JSON text with no unescaped literal newline or carriage return inside
any of its string literals, per a correct string lexer. -/
def noUnescapedNewlineInString (s : String) : Bool :=
  jsonCleanGo s.data .outside

/-- The sanitizer's own notion of cleanliness: no literal newline or carriage
return occurs while the code's `insideString` flag (with its one-character
`wasBackslash` lookbehind) is set. -/
def scannerCleanGo : List Char → Bool → Bool → Bool
  | [], _, _ => true
  | c :: rest, insideString, wasBackslash =>
    if nextInside c insideString wasBackslash && (c = '\n' || c = '\r') then false
    else scannerCleanGo rest (nextInside c insideString wasBackslash) (c = '\\')

/-- Cleanliness of a whole string per the sanitizer's own tracking. -/
def scannerClean (s : String) : Bool :=
  scannerCleanGo s.data false false

/-- One normalization step of Node's `path.posix.normalize`, over a reversed
segment stack: empty segments and `.` are dropped; `..` pops the previous
segment (or, at the root of an absolute path, is dropped); other segments are
pushed. -/
def normStep (isAbs : Bool) (stack : List String) (seg : String) : List String :=
  if seg = "" || seg = "." then stack
  else if seg = ".." then
    match stack with
    | top :: rest => if top = ".." then seg :: stack else rest
    | [] => if isAbs then [] else [seg]
  else seg :: stack

/-- The slash-separated segments of a path text. -/
def splitPathGo : List Char → List Char → List String
  | [], acc => [⟨acc.reverse⟩]
  | c :: rest, acc =>
    if c = '/' then (⟨acc.reverse⟩ : String) :: splitPathGo rest []
    else splitPathGo rest (c :: acc)

/-- Split a path on `/`. -/
def splitPath (p : String) : List String := splitPathGo p.data []

/-- Whether the path text begins with a slash. -/
def isAbsolutePath (p : String) : Bool :=
  match p.data with
  | c :: _ => c = '/'
  | [] => false

/-- Join segments back with `/` separators. -/
def joinSegs : List String → String
  | [] => ""
  | [seg] => seg
  | seg :: rest => seg ++ "/" ++ joinSegs rest

/-- Model of Node's `path.posix.normalize` on slash-separated paths: resolves
`.` and `..` segments and collapses duplicate separators. -/
def posixNormalize (p : String) : String :=
  let isAbs := isAbsolutePath p
  let stack := (splitPath p).foldl (normStep isAbs) []
  let body := joinSegs stack.reverse
  if isAbs then (if body = "" then "/" else "/" ++ body)
  else (if body = "" then "." else body)

/-- Model of Node's `path.posix.join` on two parts: the parts separated by a
slash, normalized. -/
def pathJoin (a b : String) : String :=
  if a = "" && b = "" then "."
  else if b = "" then posixNormalize a
  else if a = "" then posixNormalize b
  else posixNormalize (a ++ "/" ++ b)

/-- Whether the first character list is a prefix of the second. -/
def charsPrefixOf : List Char → List Char → Bool
  | [], _ => true
  | _ :: _, [] => false
  | a :: as, b :: bs => a = b && charsPrefixOf as bs

/-- `targetPath.startsWith(base)` of JavaScript: string prefix test. -/
def strStartsWith (s pre : String) : Bool := charsPrefixOf pre.data s.data

/-- `safePathJoin` of `src/lib/util.ts`: joins `base` and `target` with
`path.join`, then throws "Upward traversal outside of `base` not allowed"
unless the resolved path starts with the string `base`. -/
def safePathJoin (base target : String) : Except String String :=
  let targetPath := pathJoin base target
  if strStartsWith targetPath base then .ok targetPath
  else .error ("Upward traversal outside of base not allowed")

/-- Whether path `p` actually lies within the directory `base`: it is `base`
itself or a descendant (`base` followed by a separator). -/
def resolvesWithin (base p : String) : Bool :=
  p = base || strStartsWith p (base ++ "/")

/-- A validated tool execution: the registered tool's name and the validated
argument object handed to its `execute`. -/
structure ToolExecution where
  toolName : String
  args : Json

/-- Argument schema of `list_files`: `z.object({})` — any object, all keys
stripped. -/
def validateListFilesArgs : Json → Option Json
  | .obj _ => some (.obj [])
  | _ => none

/-- A required string property of a zod object schema. -/
def requireString (fields : List (String × Json)) (key : String) : Option String :=
  match getField fields key with
  | some (.str s) => some s
  | _ => none

/-- Argument schema of `read_file`: `z.object({path: z.string()})`. -/
def validateReadFileArgs : Json → Option Json
  | .obj fields =>
    (requireString fields ("path")).map (fun p => .obj [("path", .str p)])
  | _ => none

/-- Argument schema of `write_file`:
`z.object({path: z.string(), content: z.string()})`. -/
def validateWriteFileArgs : Json → Option Json
  | .obj fields =>
    match requireString fields ("path"), requireString fields ("content") with
    | some p, some c => some (.obj [("path", .str p), ("content", .str c)])
    | _, _ => none
  | _ => none

/-- Argument schema of `run`: `z.object({command: z.string()})`. -/
def validateRunArgs : Json → Option Json
  | .obj fields =>
    (requireString fields ("command")).map (fun c => .obj [("command", .str c)])
  | _ => none

/-- The HTTP methods of `make_http_request`'s `z.enum`. -/
def httpMethods : List String := ["GET", "POST", "PUT", "PATCH", "DELETE"]

/-- Whether every value of an object is a string (`z.record(z.string())`). -/
def allStringValues : List (String × Json) → Bool
  | [] => true
  | (_, .str _) :: rest => allStringValues rest
  | _ => false

/-- Optional `headers: z.record(z.string()).optional()`: absent passes,
a present record of strings passes, anything else fails. -/
def validateHeaders : Option Json → Option (List (String × Json))
  | none => some []
  | some (.obj fields) =>
    if allStringValues fields then some [("headers", .obj fields)] else none
  | some _ => none

/-- Argument schema of `make_http_request`: required `method` (one of the
enum) and `url` string, optional `headers` record of strings, optional `body`
of any shape (`z.any().optional()`). -/
def validateHttpRequestArgs : Json → Option Json
  | .obj fields =>
    match requireString fields ("method"), requireString fields ("url"),
        validateHeaders (getField fields ("headers")) with
    | some m, some u, some headerFields =>
      if httpMethods.contains m then
        some (.obj ([("method", .str m), ("url", .str u)] ++ headerFields ++
          (match getField fields ("body") with
           | some b => [("body", b)]
           | none => [])))
      else none
    | _, _, _ => none
  | _ => none

/-- Argument schema of `complete_request`: `z.object({summary: z.string()})`. -/
def validateCompleteRequestArgs : Json → Option Json
  | .obj fields =>
    (requireString fields ("summary")).map (fun s => .obj [("summary", .str s)])
  | _ => none

/-- A registered tool: its advertised name and the zod validation of its
arguments (returning the parsed, stripped argument object). -/
structure GptFunction where
  name : String
  validateArgs : Json → Option Json

/-- The fixed registry `GPT_FUNCTIONS` of the agent script, in source
order. -/
def GPT_FUNCTIONS : List GptFunction :=
  [⟨"list_files", validateListFilesArgs⟩,
   ⟨"read_file", validateReadFileArgs⟩,
   ⟨"write_file", validateWriteFileArgs⟩,
   ⟨"run", validateRunArgs⟩,
   ⟨"make_http_request", validateHttpRequestArgs⟩,
   ⟨"complete_request", validateCompleteRequestArgs⟩]

/-- Result of one dispatch: the tool-result text handed back to the loop, and
the execution performed, `none` when no tool ran. -/
structure DispatchOutcome where
  result : String
  executed : Option ToolExecution

/-- Tool execution results.  `complete_request`'s `execute` is pure in the
source: it logs the summary and returns the `<end_conversation>` sentinel.
Every other tool touches the filesystem, the shell, the network or the
prompt, so its result is the `effects` oracle's. -/
def executeTool (effects : ToolExecution → String) (exec : ToolExecution) : String :=
  if exec.toolName = "complete_request" then "<end_conversation>" else effects exec

/-- `handleFunctionCall` of the agent script (lines 221-248): look up the
tool by exact name (an unknown name throws `Function ... not found.`); parse
the raw argument string with `parseGptJson` (the sanitizer, then the external
`JSON.parse` modelled by the `jsonParse` oracle) and validate it against the
tool's schema, answering `<error parsing arguments>` without executing when
either step fails; otherwise execute the tool and return its result. -/
def handleFunctionCall (jsonParse : String → Option Json)
    (effects : ToolExecution → String) (functionCall : FunctionCall) :
    Except String DispatchOutcome :=
  match GPT_FUNCTIONS.find? (fun fn => fn.name = functionCall.name) with
  | none => .error ("Function " ++ functionCall.name ++ " not found.")
  | some fn =>
    match (jsonParse (preprocessGptJson functionCall.arguments)).bind fn.validateArgs with
    | none => .ok ⟨"<error parsing arguments>", none⟩
    | some args => .ok ⟨executeTool effects ⟨fn.name, args⟩, some ⟨fn.name, args⟩⟩

/-- The external collaborators of one loop step: `JSON.parse`, the effectful
tool executions, the interactive prompt, and the full `callGptApi` call
(already composed with its own transport). -/
structure LoopOracles where
  jsonParse : String → Option Json
  effects : ToolExecution → String
  userInput : List Message → String
  gptApi : List Message → Except GptFatal GptResult

/-- Outcome of one iteration of `handleUserRequest`'s `while (true)` loop:
the request completed (`return`), the loop continues with the grown history,
or an error propagates out of the loop. -/
inductive StepResult where
  | terminated
  | next (messages : List Message)
  | fatal (msg : String)

/-- The `user`/`function` branch of the loop body: ask the API, throw
`gpt failed` on the typed failure, append `newMessage` on success. -/
def nextFromGpt (o : LoopOracles) (messages : List Message) : StepResult :=
  match o.gptApi messages with
  | .error _ => .fatal ("gpt api fault")
  | .ok .failure => .fatal ("gpt failed")
  | .ok (.success r) => .next (messages ++ [r.newMessage])

/-- One iteration of the agent loop (`handleUserRequest`, lines 261-311),
branching on the last history entry: an assistant entry with a function call
dispatches it and either returns on the `<end_conversation>` sentinel or
appends the function-result entry; a plain assistant entry appends the
prompted user input; a user or function entry calls the GPT API via
`nextFromGpt`; the remaining case throws `unreachable`. -/
def loopStep (o : LoopOracles) (messages : List Message) : StepResult :=
  match messages.getLast? with
  | none => .fatal ("empty history")
  | some lastMessage =>
    match lastMessage with
    | .assistant _ (some fc) =>
      match handleFunctionCall o.jsonParse o.effects fc with
      | .error e => .fatal e
      | .ok outcome =>
        if outcome.result = "<end_conversation>" then .terminated
        else .next (messages ++ [.function fc.name outcome.result])
    | .assistant _ none => .next (messages ++ [.user (o.userInput messages)])
    | .user _ => nextFromGpt o messages
    | .function _ _ => nextFromGpt o messages
    | .system _ => .fatal ("unreachable")

/-- The seeded history of `handleUserRequest`: system prompt, the user's
request, and the synthetic assistant entry forcing a `list_files` call. -/
def initialMessages (systemPrompt request : String) : List Message :=
  [.system systemPrompt, .user request,
   .assistant ("First, let's list the files in the project.")
     (some ⟨"list_files", "\x7b\x7d"⟩)]

/-- Specified from the spec's words, for refinement: shape 1, a choice object
whose `finish_reason` is the string `length` (no message fields required). -/
def specLengthChoice (j : Json) : Prop :=
  ∃ fields, j = .obj fields ∧
    getField fields ("finish_reason") = some (.str "length")

/-- Specified from the spec's words: shape 2, `finish_reason` `stop` with an
assistant message containing non-null string content and no tool call. -/
def specStopChoice (j : Json) (content : String) : Prop :=
  ∃ fields msg, j = .obj fields ∧
    getField fields ("finish_reason") = some (.str "stop") ∧
    getField fields ("message") = some (.obj msg) ∧
    getField msg ("content") = some (.str content) ∧
    getField msg ("role") = some (.str "assistant") ∧
    getField msg ("function_call") = none

/-- Specified from the spec's words: shape 3, `finish_reason` `function_call`
with an assistant message whose content may be null (normalized to the empty
string) and whose tool-call object has a `name` string and an `arguments`
string. -/
def specFunctionCallChoice (j : Json) (content name args : String) : Prop :=
  ∃ fields msg fcFields, j = .obj fields ∧
    getField fields ("finish_reason") = some (.str "function_call") ∧
    getField fields ("message") = some (.obj msg) ∧
    (getField msg ("content") = some (.str content) ∨
      (getField msg ("content") = some .null ∧ content = "")) ∧
    getField msg ("role") = some (.str "assistant") ∧
    getField msg ("function_call") = some (.obj fcFields) ∧
    getField fcFields ("name") = some (.str name) ∧
    getField fcFields ("arguments") = some (.str args)

theorem parseLengthShape_of_spec {j : Json} (h : specLengthChoice j) :
    parseLengthShape j = some .length := by
  obtain ⟨fields, rfl, hfr⟩ := h
  simp [parseLengthShape, hfr]

theorem spec_of_parseLengthShape {j : Json} {c : ParsedChoice}
    (h : parseLengthShape j = some c) : c = .length ∧ specLengthChoice j := by
  match j with
  | .str _ => simp [parseLengthShape] at h
  | .num _ => simp [parseLengthShape] at h
  | .bool _ => simp [parseLengthShape] at h
  | .null => simp [parseLengthShape] at h
  | .arr _ => simp [parseLengthShape] at h
  | .obj fields =>
    cases hfr : getField fields ("finish_reason") with
    | none => simp [parseLengthShape, hfr] at h
    | some v =>
      cases v with
      | str s =>
        simp only [parseLengthShape, hfr] at h
        split at h
        case isTrue hs =>
          refine ⟨by injection h with h; exact h.symm, fields, rfl, ?_⟩
          rw [hfr, hs]
        case isFalse hs => exact absurd h (by simp)
      | num n => simp [parseLengthShape, hfr] at h
      | bool b => simp [parseLengthShape, hfr] at h
      | null => simp [parseLengthShape, hfr] at h
      | arr l => simp [parseLengthShape, hfr] at h
      | obj o => simp [parseLengthShape, hfr] at h

theorem spec_of_parseStopShape {j : Json} {c : ParsedChoice}
    (h : parseStopShape j = some c) :
    ∃ content, c = .stop content ∧ specStopChoice j content := by
  match j with
  | .str _ => simp [parseStopShape] at h
  | .num _ => simp [parseStopShape] at h
  | .bool _ => simp [parseStopShape] at h
  | .null => simp [parseStopShape] at h
  | .arr _ => simp [parseStopShape] at h
  | .obj fields =>
    simp only [parseStopShape] at h
    split at h
    next fr msg hfr hmsg =>
      split at h
      next hstop =>
        split at h
        next content role hc hr hfc =>
          split at h
          next hrole =>
            refine ⟨content, by injection h with h; exact h.symm,
              fields, msg, rfl, ?_, ?_, ?_, ?_, ?_⟩
            · rw [hfr, hstop]
            · exact hmsg
            · exact hc
            · rw [hr, hrole]
            · exact hfc
          next => exact absurd h (by simp)
        next => exact absurd h (by simp)
      next => exact absurd h (by simp)
    next => exact absurd h (by simp)

theorem parseStopShape_of_spec {j : Json} {content : String}
    (h : specStopChoice j content) : parseStopShape j = some (.stop content) := by
  obtain ⟨fields, msg, rfl, hfr, hmsg, hc, hr, hfc⟩ := h
  simp [parseStopShape, hfr, hmsg, hc, hr, hfc]

theorem parseNullableContent_some {v : Option Json} {content : String}
    (h : parseNullableContent v = some content) :
    v = some (.str content) ∨ (v = some .null ∧ content = "") := by
  match v with
  | none => simp [parseNullableContent] at h
  | some (.str s) =>
    simp only [parseNullableContent, Option.some.injEq] at h
    exact Or.inl (by rw [h])
  | some (.num _) => simp [parseNullableContent] at h
  | some (.bool _) => simp [parseNullableContent] at h
  | some .null =>
    simp only [parseNullableContent, Option.some.injEq] at h
    exact Or.inr ⟨rfl, h.symm⟩
  | some (.arr _) => simp [parseNullableContent] at h
  | some (.obj _) => simp [parseNullableContent] at h

theorem parseNullableContent_of_spec {v : Option Json} {content : String}
    (h : v = some (.str content) ∨ (v = some .null ∧ content = "")) :
    parseNullableContent v = some content := by
  rcases h with h | ⟨h, rfl⟩ <;> simp [h, parseNullableContent]

theorem spec_of_parseFunctionCallShape {j : Json} {c : ParsedChoice}
    (h : parseFunctionCallShape j = some c) :
    ∃ content name args, c = .functionCall content ⟨name, args⟩ ∧
      specFunctionCallChoice j content name args := by
  match j with
  | .str _ => simp [parseFunctionCallShape] at h
  | .num _ => simp [parseFunctionCallShape] at h
  | .bool _ => simp [parseFunctionCallShape] at h
  | .null => simp [parseFunctionCallShape] at h
  | .arr _ => simp [parseFunctionCallShape] at h
  | .obj fields =>
    simp only [parseFunctionCallShape] at h
    split at h
    next fr msg hfr hmsg =>
      split at h
      next hfcr =>
        split at h
        next content role fcFields hc hr hfc =>
          split at h
          next hrole =>
            split at h
            next name args hname hargs =>
              refine ⟨content, name, args, by injection h with h; exact h.symm,
                fields, msg, fcFields, rfl, ?_, ?_, ?_, ?_, ?_, ?_, ?_⟩
              · rw [hfr, hfcr]
              · exact hmsg
              · exact parseNullableContent_some hc
              · rw [hr, hrole]
              · exact hfc
              · exact hname
              · exact hargs
            next => exact absurd h (by simp)
          next => exact absurd h (by simp)
        next => exact absurd h (by simp)
      next => exact absurd h (by simp)
    next => exact absurd h (by simp)

theorem parseFunctionCallShape_of_spec {j : Json} {content name args : String}
    (h : specFunctionCallChoice j content name args) :
    parseFunctionCallShape j = some (.functionCall content ⟨name, args⟩) := by
  obtain ⟨fields, msg, fcFields, rfl, hfr, hmsg, hc, hr, hfc, hname, hargs⟩ := h
  have hcontent := parseNullableContent_of_spec hc
  simp [parseFunctionCallShape, hfr, hmsg, hcontent, hr, hfc, hname, hargs]

theorem parseLengthShape_none_of_fr {fields : List (String × Json)} {fr : String}
    (hfr : getField fields ("finish_reason") = some (.str fr)) (hne : fr ≠ "length") :
    parseLengthShape (.obj fields) = none := by
  simp [parseLengthShape, hfr, hne]

theorem parseStopShape_none_of_fr {fields : List (String × Json)} {fr : String}
    (hfr : getField fields ("finish_reason") = some (.str fr)) (hne : fr ≠ "stop") :
    parseStopShape (.obj fields) = none := by
  cases hmsg : getField fields ("message") with
  | none => simp [parseStopShape, hfr, hmsg]
  | some v => cases v <;> simp [parseStopShape, hfr, hmsg, hne]

theorem parseFunctionCallShape_none_of_fr {fields : List (String × Json)} {fr : String}
    (hfr : getField fields ("finish_reason") = some (.str fr))
    (hne : fr ≠ "function_call") : parseFunctionCallShape (.obj fields) = none := by
  cases hmsg : getField fields ("message") with
  | none => simp [parseFunctionCallShape, hfr, hmsg]
  | some v => cases v <;> simp [parseFunctionCallShape, hfr, hmsg, hne]

theorem parseChoice_of_specLength {j : Json} (h : specLengthChoice j) :
    parseChoice j = .ok .length := by
  simp [parseChoice, parseLengthShape_of_spec h]

theorem parseChoice_of_specStop {j : Json} {content : String}
    (h : specStopChoice j content) : parseChoice j = .ok (.stop content) := by
  obtain ⟨fields, msg, hj, hfr, hmsg, hc, hr, hfc⟩ := h
  subst hj
  have h1 : parseLengthShape (.obj fields) = none :=
    parseLengthShape_none_of_fr hfr (by decide)
  have h2 : parseStopShape (.obj fields) = some (.stop content) :=
    parseStopShape_of_spec ⟨fields, msg, rfl, hfr, hmsg, hc, hr, hfc⟩
  simp [parseChoice, h1, h2]

theorem parseChoice_of_specFunctionCall {j : Json} {content name args : String}
    (h : specFunctionCallChoice j content name args) :
    parseChoice j = .ok (.functionCall content ⟨name, args⟩) := by
  obtain ⟨fields, msg, fcFields, hj, hfr, hmsg, hc, hr, hfc, hname, hargs⟩ := h
  subst hj
  have h1 : parseLengthShape (.obj fields) = none :=
    parseLengthShape_none_of_fr hfr (by decide)
  have h2 : parseStopShape (.obj fields) = none :=
    parseStopShape_none_of_fr hfr (by decide)
  have h3 : parseFunctionCallShape (.obj fields) = some (.functionCall content ⟨name, args⟩) :=
    parseFunctionCallShape_of_spec ⟨fields, msg, fcFields, rfl, hfr, hmsg, hc, hr, hfc, hname, hargs⟩
  simp [parseChoice, h1, h2, h3]

theorem parseChoice_eq_error {j : Json} (hl : ¬ specLengthChoice j)
    (hs : ∀ content, ¬ specStopChoice j content)
    (hf : ∀ content name args, ¬ specFunctionCallChoice j content name args) :
    parseChoice j = .error j := by
  have h1 : parseLengthShape j = none := by
    cases h : parseLengthShape j with
    | none => rfl
    | some c => exact absurd (spec_of_parseLengthShape h).2 hl
  have h2 : parseStopShape j = none := by
    cases h : parseStopShape j with
    | none => rfl
    | some c =>
      obtain ⟨content, _, hspec⟩ := spec_of_parseStopShape h
      exact absurd hspec (hs content)
  have h3 : parseFunctionCallShape j = none := by
    cases h : parseFunctionCallShape j with
    | none => rfl
    | some c =>
      obtain ⟨content, name, args, _, hspec⟩ := spec_of_parseFunctionCallShape h
      exact absurd hspec (hf content name args)
  simp [parseChoice, h1, h2, h3]

/-- C2: with a transport stub answering HTTP 500 on every attempt, the retry
loop of `callGptApi` performs 4 attempts in total (the initial try plus 3
retries, the `triesLeft > 0` guard being checked before the decrement),
sleeping 1000, 2000 and 3000 ms, and then re-raises the last 500 fault — not
the 3 attempts the claim states. -/
theorem retry_stub500_four_attempts :
    transportLoop (fun _ => .httpResponse 500 .null) =
      (⟨4, [1000, 2000, 3000]⟩, .raised (.httpStatus 500)) ∧
    (transportLoop (fun _ => .httpResponse 500 .null)).1.attemptsMade ≠ 3 := by
  exact ⟨rfl, by decide⟩

/-- C5 counterexample: a stub answering HTTP 429 on every attempt causes
exactly one attempt, no backoff sleep, and an immediate re-raise — 429 is in
the 4xx `doNotRetry` range, so it is not treated as a retryable transport
fault. -/
theorem status429_not_retried :
    transportLoop (fun _ => .httpResponse 429 .null) =
      (⟨1, []⟩, .raised (.httpStatus 429)) := rfl

/-- C5 amended: any 4xx status, 429 included, is classified as a
non-retryable client fault: `callGptApi` raises it after exactly one attempt
with no backoff. -/
theorem client_error_no_retry (status : Nat) (bodies : Nat → Json)
    (h4 : 400 ≤ status) (h5 : status < 500) :
    transportLoop (fun i => .httpResponse status (bodies i)) =
      (⟨1, []⟩, .raised (.httpStatus status)) := by
  have hnot2xx : ¬ (200 ≤ status ∧ status < 300) := by omega
  have h4xx : 400 ≤ status ∧ status < 500 := ⟨h4, h5⟩
  simp [transportLoop, retryLoopGo, hnot2xx, h4xx]

/-- Witness for `client_error_no_retry` at status 429. -/
theorem client_error_no_retry_witness :
    transportLoop (fun _ => .httpResponse 429 .null) =
      (⟨1, []⟩, .raised (.httpStatus 429)) :=
  client_error_no_retry 429 (fun _ => .null) (by decide) (by decide)

/-- C3: `safePathJoin "/a/b" "../bc"` resolves to the sibling directory
`"/a/bc"`, which lies outside the working directory `"/a/b"`, yet the
`startsWith` string check lets it through — while a traversal such as
`"../../etc/passwd"` is rejected before any filesystem access. -/
theorem safePathJoin_sibling_escape :
    safePathJoin ("/a/b") ("../bc") = .ok ("/a/bc") ∧
    resolvesWithin ("/a/b") ("/a/bc") = false ∧
    safePathJoin ("/a/b") ("../../etc/passwd") =
      .error ("Upward traversal outside of base not allowed") :=
  ⟨rfl, rfl, rfl⟩

/-- C8 counterexample input: a `function_call` choice whose tool-call object
carries the empty string as its name. -/
def emptyNameChoice : Json :=
  .obj [("finish_reason", .str ("function_call")),
    ("message", .obj [("content", .null), ("role", .str ("assistant")),
      ("function_call", .obj [("name", .str ("")), ("arguments", .str ("\x7b\x7d"))])])]

/-- C8 counterexample: the union parse accepts a `function_call` choice whose
function name is the empty string (`z.string()` does not require
non-emptiness), yielding Success rather than a fatal parse error. -/
theorem empty_function_name_parses :
    parseChoice emptyNameChoice =
      .ok (.functionCall ("") ⟨"", "\x7b\x7d"⟩) := rfl

/-- A canonical `function_call` choice with the given optional content, tool
name and argument string. -/
def mkFunctionCallChoice (content : Option String) (name args : String) : Json :=
  .obj [("finish_reason", .str ("function_call")),
    ("message", .obj
      [("content", match content with | some s => .str s | none => .null),
       ("role", .str ("assistant")),
       ("function_call", .obj [("name", .str name), ("arguments", .str args)])])]

/-- C8 amended: a `function_call` choice yields Success whenever its
tool-call object carries a name string — empty or not — and an arguments
string, with null content normalized to the empty string. -/
theorem function_call_choice_any_name (content : Option String) (name args : String) :
    parseChoice (mkFunctionCallChoice content name args) =
      .ok (.functionCall (content.getD ("")) ⟨name, args⟩) := by
  cases content <;> rfl

/-- C4 counterexample: the valid JSON text consisting of the string literal
`"a\\"` followed by a line feed contains no unescaped newline inside any
string literal (the newline stands after the closing quote), yet the
sanitizer rewrites it: its one-character lookbehind takes the quote after the
escaped backslash for an escaped quote and believes it is still inside the
string. -/
theorem sanitizer_alters_clean_json :
    noUnescapedNewlineInString ("\"a\\\\\"\n") = true ∧
    preprocessGptJson ("\"a\\\\\"\n") ≠ ("\"a\\\\\"\n") := by
  exact ⟨rfl, by decide⟩

theorem preprocessGo_id_of_clean (l : List Char) : ∀ (ins wb : Bool),
    scannerCleanGo l ins wb = true → preprocessGptJsonGo l ins wb = l := by
  induction l with
  | nil => intro ins wb _; rfl
  | cons c rest ih =>
    intro ins wb h
    simp only [scannerCleanGo] at h
    simp only [preprocessGptJsonGo]
    split at h
    next hcond => exact absurd h (by simp)
    next hcond =>
      rw [if_neg hcond, ih _ _ h]
      rfl

/-- C4 amended: whenever, per the sanitizer's own backslash-lookbehind
tracking, no literal newline or carriage return occurs while its
inside-string flag is set, `preprocessGptJson` returns its input unchanged
(and in particular alters no character at a position its tracker counts as
outside a string). -/
theorem sanitizer_noop_when_scanner_clean (s : String) (h : scannerClean s = true) :
    preprocessGptJson s = s := by
  cases s with
  | mk data => exact congrArg String.mk (preprocessGo_id_of_clean data false false h)

/-- Witness for `sanitizer_noop_when_scanner_clean` on a small JSON text. -/
theorem sanitizer_noop_witness :
    scannerClean ("[1, 2]") = true ∧ preprocessGptJson ("[1, 2]") = ("[1, 2]") :=
  ⟨rfl, sanitizer_noop_when_scanner_clean ("[1, 2]") rfl⟩

theorem parseResponse_first_choice (messages : List Message) (choice : Json)
    (rest : List Json) :
    parseResponse messages (.obj [("choices", .arr (choice :: rest))]) =
      match parseChoice choice with
      | .error c => .error (.badChoice c)
      | .ok parsedChoice => finishDispatch messages parsedChoice := rfl

/-- C1: for every endpoint response whose first choice is well-formed, the
parser yields the outcome determined by `finish_reason` — `length` yields the
exceeded-token-limit failure, `stop` with non-null string content and no tool
call yields Success with a terminal assistant entry, `function_call` (content
possibly null, normalized to the empty string) yields Success with an
assistant entry carrying the tool call — and a choice matching none of the
three shapes is a fatal error carrying the raw offending choice. -/
theorem choice_finish_reason_coverage :
    ∀ (messages : List Message) (choice : Json) (rest : List Json),
      (specLengthChoice choice →
        parseResponse messages (.obj [("choices", .arr (choice :: rest))]) =
          .ok .failure) ∧
      (∀ content, specStopChoice choice content →
        parseResponse messages (.obj [("choices", .arr (choice :: rest))]) =
          .ok (getReturnValue messages (.assistant content none))) ∧
      (∀ content name args, specFunctionCallChoice choice content name args →
        parseResponse messages (.obj [("choices", .arr (choice :: rest))]) =
          .ok (getReturnValue messages (.assistant content (some ⟨name, args⟩)))) ∧
      (((¬ specLengthChoice choice) ∧ (∀ content, ¬ specStopChoice choice content) ∧
          (∀ content name args, ¬ specFunctionCallChoice choice content name args)) →
        parseResponse messages (.obj [("choices", .arr (choice :: rest))]) =
          .error (.badChoice choice)) := by
  intro messages choice rest
  refine ⟨?_, ?_, ?_, ?_⟩
  · intro h
    rw [parseResponse_first_choice, parseChoice_of_specLength h]
    rfl
  · intro content h
    rw [parseResponse_first_choice, parseChoice_of_specStop h]
    rfl
  · intro content name args h
    rw [parseResponse_first_choice, parseChoice_of_specFunctionCall h]
    rfl
  · rintro ⟨hl, hs, hf⟩
    rw [parseResponse_first_choice, parseChoice_eq_error hl hs hf]

/-- C10: once the first choice has parsed successfully against the
three-variant union, its finish reason is one of `length`, `stop` and
`function_call`, so the trailing "GPT had unexpected finish reason" branch of
`finishDispatch` is unreachable: the dispatch always returns a result. -/
theorem parsed_choice_dispatch_total (messages : List Message) (j : Json)
    (pc : ParsedChoice) (_hparse : parseChoice j = .ok pc) :
    ∃ result, finishDispatch messages pc = .ok result := by
  clear _hparse
  cases pc with
  | length => exact ⟨.failure, rfl⟩
  | stop content => exact ⟨_, rfl⟩
  | functionCall content fc => exact ⟨_, rfl⟩

/-- Witness for `parsed_choice_dispatch_total` at the concrete length
choice. -/
theorem parsed_choice_dispatch_total_witness :
    ∃ result, finishDispatch ([] : List Message) ParsedChoice.length =
      Except.ok result :=
  parsed_choice_dispatch_total [] (Json.obj [("finish_reason", Json.str ("length"))])
    ParsedChoice.length rfl

/-- C7: dispatch of a tool call whose name matches no registered tool throws
the fatal `Function ... not found.` error; dispatch of a registered tool
whose raw argument string fails JSON parsing (after sanitization) or schema
validation answers the sentinel `<error parsing arguments>` without raising
and without executing the tool. -/
theorem dispatch_argument_fault_handling :
    ∀ (jsonParse : String → Option Json) (effects : ToolExecution → String)
      (fc : FunctionCall),
      (GPT_FUNCTIONS.find? (fun fn => fn.name = fc.name) = none →
        handleFunctionCall jsonParse effects fc =
          .error ("Function " ++ fc.name ++ " not found.")) ∧
      (∀ fn, GPT_FUNCTIONS.find? (fun fn => fn.name = fc.name) = some fn →
        (jsonParse (preprocessGptJson fc.arguments) = none ∨
          ∃ v, jsonParse (preprocessGptJson fc.arguments) = some v ∧
            fn.validateArgs v = none) →
        handleFunctionCall jsonParse effects fc =
          .ok ⟨"<error parsing arguments>", none⟩) := by
  intro jsonParse effects fc
  constructor
  · intro h
    simp [handleFunctionCall, h]
  · intro fn hfind hfail
    have hbind : (jsonParse (preprocessGptJson fc.arguments)).bind fn.validateArgs
        = none := by
      rcases hfail with h | ⟨v, hv, hval⟩
      · rw [h]
        rfl
      · rw [hv]
        simpa using hval
    simp [handleFunctionCall, hfind, hbind]

/-- C6: the agent loop terminates the current request — appending nothing —
exactly when the dispatched tool call's result text equals the
`<end_conversation>` sentinel; any other result text makes it append a
function-result entry naming the called tool and continue; and executing the
`complete_request` tool always produces that sentinel, so its execution
terminates the loop. -/
theorem tool_sentinel_terminates_loop :
    ∀ (o : LoopOracles) (messages : List Message),
      (loopStep o messages = .terminated ↔
        ∃ content fc outcome,
          messages.getLast? = some (.assistant content (some fc)) ∧
          handleFunctionCall o.jsonParse o.effects fc = .ok outcome ∧
          outcome.result = "<end_conversation>") ∧
      (∀ content fc outcome,
        messages.getLast? = some (.assistant content (some fc)) →
        handleFunctionCall o.jsonParse o.effects fc = .ok outcome →
        outcome.result ≠ "<end_conversation>" →
        loopStep o messages =
          .next (messages ++ [.function fc.name outcome.result])) ∧
      (∀ args, executeTool o.effects ⟨"complete_request", args⟩ =
        "<end_conversation>") := by
  intro o messages
  refine ⟨⟨?_, ?_⟩, ?_, ?_⟩
  · intro hterm
    unfold loopStep at hterm
    split at hterm
    next => exact absurd hterm (by simp)
    next =>
      split at hterm
      · rename_i content fc hlast
        split at hterm
        next e hh => exact absurd hterm (by simp)
        next outcome hh =>
          split at hterm
          next hres => exact ⟨content, fc, outcome, hlast, hh, hres⟩
          next hres => exact absurd hterm (by simp)
      · exact absurd hterm (by simp)
      · unfold nextFromGpt at hterm
        split at hterm
        next => exact absurd hterm (by simp)
        next => exact absurd hterm (by simp)
        next => exact absurd hterm (by simp)
      · unfold nextFromGpt at hterm
        split at hterm
        next => exact absurd hterm (by simp)
        next => exact absurd hterm (by simp)
        next => exact absurd hterm (by simp)
      · exact absurd hterm (by simp)
  · rintro ⟨content, fc, outcome, hlast, hh, hres⟩
    unfold loopStep
    simp only [hlast, hh, hres]
    rfl
  · intro content fc outcome hlast hh hres
    unfold loopStep
    simp only [hlast, hh]
    rw [if_neg hres]
  · intro args
    rfl

theorem finishDispatch_success_messages {messages : List Message}
    {pc : ParsedChoice} {r : SuccessResult}
    (h : finishDispatch messages pc = .ok (.success r)) :
    r.messages = messages ++ [r.newMessage] := by
  cases pc with
  | length =>
    rw [show finishDispatch messages .length = .ok .failure from rfl] at h
    exact absurd h (by simp)
  | stop content =>
    rw [show finishDispatch messages (.stop content) =
      .ok (getReturnValue messages (.assistant content none)) from rfl] at h
    simp only [getReturnValue, Except.ok.injEq, GptResult.success.injEq] at h
    rw [← h]
  | functionCall content fc =>
    rw [show finishDispatch messages (.functionCall content fc) =
      .ok (getReturnValue messages (.assistant content (some fc))) from rfl] at h
    simp only [getReturnValue, Except.ok.injEq, GptResult.success.injEq] at h
    rw [← h]

theorem parseResponse_success_messages {messages : List Message} {body : Json}
    {r : SuccessResult} (h : parseResponse messages body = .ok (.success r)) :
    r.messages = messages ++ [r.newMessage] := by
  unfold parseResponse at h
  split at h
  next fields =>
    split at h
    next choices hch =>
      split at h
      next => exact absurd h (by simp)
      next choice hhead =>
        split at h
        next c hc => exact absurd h (by simp)
        next pc hpc => exact finishDispatch_success_messages h
    next => exact absurd h (by simp)
  next => exact absurd h (by simp)

/-- C9: the conversation history is append-only — every continuing step of
the agent loop extends the previous history (removing and reordering
nothing), and a successful `callGptApi` leaves the caller's list untouched,
returning it with exactly the one new assistant entry appended. -/
theorem history_append_only :
    ∀ (o : LoopOracles) (messages newMessages : List Message),
      (loopStep o messages = .next newMessages →
        ∃ tail, newMessages = messages ++ tail) ∧
      (∀ (stub : Nat → AttemptOutcome) (trace : TransportTrace)
          (r : SuccessResult),
        callGptApi stub messages = (trace, .ok (.success r)) →
        r.messages = messages ++ [r.newMessage]) := by
  intro o messages newMessages
  constructor
  · intro h
    unfold loopStep at h
    split at h
    next => exact absurd h (by simp)
    next =>
      split at h
      · rename_i content fc hlast
        split at h
        next e hh => exact absurd h (by simp)
        next outcome hh =>
          split at h
          next hres => exact absurd h (by simp)
          next hres =>
            refine ⟨[.function fc.name outcome.result], ?_⟩
            injection h with h
            rw [h]
      · refine ⟨[.user (o.userInput messages)], ?_⟩
        injection h with h
        rw [h]
      · unfold nextFromGpt at h
        split at h
        next => exact absurd h (by simp)
        next => exact absurd h (by simp)
        next r hg =>
          refine ⟨[r.newMessage], ?_⟩
          injection h with h
          rw [h]
      · unfold nextFromGpt at h
        split at h
        next => exact absurd h (by simp)
        next => exact absurd h (by simp)
        next r hg =>
          refine ⟨[r.newMessage], ?_⟩
          injection h with h
          rw [h]
      · exact absurd h (by simp)
  · intro stub trace r h
    unfold callGptApi at h
    split at h
    next => exact absurd h (by simp)
    next => exact absurd h (by simp)
    next tr body heq =>
      rw [Prod.mk.injEq] at h
      exact parseResponse_success_messages h.2

end Firebuild
